import Mathlib

/-!
A verification development for the MadCourses matching engine.

The definitions below are a shallow embedding of the TypeScript source:

* src/lib/database.ts : the Course record, the catalog cache
  (loadCourseData) and the filter evaluator (filterCourses);
* src/routes/api/match/+server.ts : the POST handler, the embedding
  normalization step of createSkillEmbedding, computeSimilarities and
  getTopKMatches.

Modelling conventions:

* JavaScript numbers are modelled as rationals (the similarity and filter
  arithmetic involved never leaves exact decimal arithmetic); the embedding
  normalization step, which genuinely uses square roots, is modelled over
  the reals.
* JavaScript strings are modelled as Lean strings; for the ASCII term codes
  and subject codes involved, JavaScript code-unit comparison coincides
  with comparison of the underlying character lists.
* Optional request fields are Option values; JavaScript truthiness of a
  number (resp. string) field is the test against 0 (resp. the empty
  string), applied to present values.
* Array.prototype.sort is mandated stable by ECMAScript 2019 and later,
  and the comparator (a, b) => b.sim - a.sim orders by descending score;
  it is modelled by a stable merge sort under the comparator's order.
* Array.prototype.slice(0, k) clamps a nonnegative end index to the
  length and counts a negative end index from the end of the array.
-/

/-- JavaScript Array.prototype.slice(0, k): a nonnegative end index is
clamped to the length, a negative end index counts from the end. -/
def jsSlice {α : Type} (l : List α) (k : Int) : List α :=
  if k < 0 then l.take ((l.length : Int) + k).toNat else l.take k.toNat

/-- Decides whether the character list pat is a prefix of l
(helper for the JavaScript String.prototype.includes model). -/
def charPrefix : List Char → List Char → Bool
  | [], _ => true
  | _ :: _, [] => false
  | a :: as, b :: bs => a == b && charPrefix as bs

/-- Decides whether the character list pat occurs contiguously in l
(helper for the JavaScript String.prototype.includes model). -/
def charContains : List Char → List Char → Bool
  | [], pat => pat.isEmpty
  | a :: t, pat => charPrefix pat (a :: t) || charContains t pat

/-- JavaScript String.prototype.includes on the underlying characters. -/
def jsIncludes (s pat : String) : Bool :=
  charContains s.data pat.data

/-- JavaScript String.prototype.toLowerCase on an ASCII character:
map an upper-case letter 32 code points down, anything else unchanged. -/
def charLower (c : Char) : Char :=
  if 'A' ≤ c ∧ c ≤ 'Z' then Char.ofNat (c.toNat + 32) else c

/-- JavaScript String.prototype.toLowerCase (ASCII fragment; the subject
codes and filter strings involved are ASCII). -/
def jsToLower (s : String) : String :=
  ⟨s.data.map charLower⟩

/-- JavaScript string comparison: lexicographic on the code-unit sequence,
which for the strings involved is the lexicographic order on the
underlying character list. -/
def jsStrLt (a b : String) : Bool :=
  decide (a.data < b.data)

/-- The Course record of src/lib/database.ts (embedding excluded). -/
structure Course where
  id : Int
  subject : String
  level : ℚ
  title : String
  credit_amount : ℚ
  credit_min : ℚ
  credit_max : ℚ
  last_taught : String
  description : String
deriving DecidableEq, Repr

instance : Inhabited Course :=
  ⟨⟨0, "", 0, "", 0, 0, 0, "", ""⟩⟩

/-- The CourseWithEmbedding record of src/lib/database.ts. -/
structure CourseWithEmbedding extends Course where
  embedding : List ℚ
deriving DecidableEq, Repr

/-- The optional filter fields accepted by filterCourses
(src/lib/database.ts, lines 91-98). -/
structure Filters where
  subject_contains : Option String := none
  level_min : Option ℚ := none
  level_max : Option ℚ := none
  credit_min : Option ℚ := none
  credit_max : Option ℚ := none
  last_taught : Option String := none
deriving DecidableEq, Repr

/-- filterCourses, subject clause (database.ts lines 104-109): a present,
truthy (nonempty) filter string fails the course when the case-folded
subject does not contain the case-folded filter string. -/
def subjectPass (c : Course) : Option String → Bool
  | none => true
  | some s => !(decide (s ≠ "") && !jsIncludes (jsToLower c.subject) (jsToLower s))

/-- filterCourses, level_min clause (database.ts lines 110-112): a present,
truthy (nonzero) bound fails the course when its level lies below it. -/
def levelMinPass (c : Course) : Option ℚ → Bool
  | none => true
  | some q => !(decide (q ≠ 0) && decide (c.level < q))

/-- filterCourses, level_max clause (database.ts lines 113-115). -/
def levelMaxPass (c : Course) : Option ℚ → Bool
  | none => true
  | some q => !(decide (q ≠ 0) && decide (c.level > q))

/-- filterCourses, credit_min clause (database.ts lines 116-118): a present,
truthy (nonzero) lower bound fails the course when the top of the course's
credit interval lies below it. -/
def creditMinPass (c : Course) : Option ℚ → Bool
  | none => true
  | some q => !(decide (q ≠ 0) && decide (c.credit_max < q))

/-- filterCourses, credit_max clause (database.ts lines 119-121): a present,
truthy (nonzero) upper bound fails the course when the bottom of the
course's credit interval lies above it. -/
def creditMaxPass (c : Course) : Option ℚ → Bool
  | none => true
  | some q => !(decide (q ≠ 0) && decide (c.credit_min > q))

/-- filterCourses, last_taught clause (database.ts lines 122-124): a
present, truthy (nonempty) filter string fails the course when its
last_taught string compares lexically below the filter string. -/
def lastTaughtPass (c : Course) : Option String → Bool
  | none => true
  | some s => !(decide (s ≠ "") && jsStrLt c.last_taught s)

/-- The per-course predicate of filterCourses (database.ts lines 103-126):
the clause chain of early false returns is the conjunction of the six
clauses. -/
def coursePasses (c : Course) (f : Filters) : Bool :=
  subjectPass c f.subject_contains &&
  levelMinPass c f.level_min &&
  levelMaxPass c f.level_max &&
  creditMinPass c f.credit_min &&
  creditMaxPass c f.credit_max &&
  lastTaughtPass c f.last_taught

/-- The two credit clauses of filterCourses taken together: the credit
filter of the evaluator (database.ts lines 116-121). -/
def creditPass (c : Course) (fmin fmax : Option ℚ) : Bool :=
  creditMinPass c fmin && creditMaxPass c fmax

/-- The record returned by filterCourses and loadCourseData:
the surviving courses with the embeddings split off. -/
structure FilterResult where
  courses : List Course
  embeddings : List (List ℚ)
deriving DecidableEq, Repr

/-- filterCourses (database.ts lines 89-137): when a filter record is
supplied, keep the courses passing every clause, in catalog order; then
split each survivor into its embedding-free record and its embedding. -/
def filterCourses (courses : List CourseWithEmbedding) (filters : Option Filters) :
    FilterResult :=
  let filtered := match filters with
    | none => courses
    | some f => courses.filter (fun cw => coursePasses cw.toCourse f)
  ⟨filtered.map (fun cw => cw.toCourse), filtered.map (fun cw => cw.embedding)⟩

/-- Builds the indexed score list of getTopKMatches
(+server.ts line 112: similarities.map of (sim, idx) to the pair), with
the running index made explicit; an entry is (idx, sim). -/
def indexedFrom (i : Nat) : List ℚ → List (Nat × ℚ)
  | [] => []
  | x :: t => (i, x) :: indexedFrom (i + 1) t

/-- The indexed score list of getTopKMatches (+server.ts line 112). -/
def indexed (sims : List ℚ) : List (Nat × ℚ) :=
  indexedFrom 0 sims

/-- The order induced by the comparator (a, b) => b.sim - a.sim of
getTopKMatches (+server.ts line 113): a sorts no later than b exactly when
b's score does not exceed a's. -/
def leBySim (a b : Nat × ℚ) : Bool :=
  decide (b.2 ≤ a.2)

/-- The sort step of getTopKMatches (+server.ts line 113).
Array.prototype.sort is stable (ECMAScript 2019 and later), so it is
modelled by a stable merge sort under the comparator's order. -/
def sortIndexed (sims : List ℚ) : List (Nat × ℚ) :=
  (indexed sims).mergeSort leBySim

/-- A ranked entry returned by getTopKMatches: the course record spread
together with the attached similarity score (+server.ts lines 115-118). -/
structure MatchResult where
  course : Course
  similarity : ℚ
deriving DecidableEq, Repr

/-- getTopKMatches (+server.ts lines 111-119): index the scores, sort by
descending score, slice the first k entries, and pair each surviving index
with its course record and score. -/
def getTopKMatches (courses : List Course) (similarities : List ℚ) (k : Int) :
    List MatchResult :=
  (jsSlice (sortIndexed similarities) k).map
    (fun p => ⟨courses.getD p.1 default, p.2⟩)

/-- The indexed dot product of computeSimilarities (+server.ts line 107):
queryEmbedding.reduce over indices of the query vector. -/
def dotProduct (q e : List ℚ) : ℚ :=
  (List.range q.length).foldl (fun sum i => sum + q.getD i 0 * e.getD i 0) 0

/-- computeSimilarities (+server.ts lines 104-109). -/
def computeSimilarities (queryEmbedding : List ℚ) (courseEmbeddings : List (List ℚ)) :
    List ℚ :=
  courseEmbeddings.map (fun e => dotProduct queryEmbedding e)

/-- The stores loadCourseData may consult: the primary blob store and the
local-file fallback (database.ts lines 36-86). -/
inductive LoadAttempt where
  | primaryStore
  | fallbackStore
deriving DecidableEq, Repr

/-- loadCourseData (database.ts lines 23-87). Inputs: the outcome each of
the two stores would produce, the current process-wide cache, and the
optional filters. Output: the response (filtered catalog or the thrown
message), the cache afterwards, and the stores consulted, in order.
A populated cache is returned filtered without consulting any store; an
empty cache consults the primary store, then on its failure the fallback
store; a catalog obtained either way is cached unfiltered; if both stores
fail the call throws and the cache stays empty. -/
def loadCourseData
    (primary fallback : Except String (List CourseWithEmbedding))
    (cache : Option (List CourseWithEmbedding)) (filters : Option Filters) :
    Except String FilterResult × Option (List CourseWithEmbedding) × List LoadAttempt :=
  match cache with
  | some d => (.ok (filterCourses d filters), some d, [])
  | none =>
    match primary with
    | .ok d => (.ok (filterCourses d filters), some d, [.primaryStore])
    | .error _ =>
      match fallback with
      | .ok d => (.ok (filterCourses d filters), some d, [.primaryStore, .fallbackStore])
      | .error _ =>
        (.error "Course data not available - please upload to blob storage", none,
          [.primaryStore, .fallbackStore])

/-- The value of the skills field of a request body: absent (or another
falsy value), present but not an array, or an array of strings. -/
inductive SkillsField where
  | missing
  | nonArray
  | array (xs : List String)
deriving DecidableEq, Repr

/-- The request body destructured by the POST handler (+server.ts line 8):
the skills field, the optional k (defaulted to 5), and the rest of the
fields, which are forwarded as filters. -/
structure ReqBody where
  skills : SkillsField
  k : Option Int := none
  subject_contains : Option String := none
  level_min : Option ℚ := none
  level_max : Option ℚ := none
  credit_min : Option ℚ := none
  credit_max : Option ℚ := none
  last_taught : Option String := none
  last_taught_ge : Option String := none
deriving DecidableEq, Repr

/-- The JavaScript or-else on optional strings, modelling
(filters.last_taught_ge || filters.last_taught) in the loadCourseData
wrapper (+server.ts line 98): the first operand wins when truthy. -/
def jsOrElse : Option String → Option String → Option String
  | some s, y => if s ≠ "" then some s else y
  | none, y => y

/-- The filter-format conversion of the loadCourseData wrapper
(+server.ts lines 92-99). -/
def dbFilters (b : ReqBody) : Filters :=
  ⟨b.subject_contains, b.level_min, b.level_max, b.credit_min, b.credit_max,
    jsOrElse b.last_taught_ge b.last_taught⟩

/-- One per-skill result entry pushed by the POST handler
(+server.ts line 33). The source names the second field "matches", which
is a reserved word in Lean. -/
structure SkillResult where
  skill : String
  matchList : List MatchResult
deriving DecidableEq, Repr

/-- An HTTP response of the POST handler: a 200 success carrying the
results list, or a failure status carrying the error-payload message. -/
inductive Resp where
  | success (results : List SkillResult)
  | failure (status : Nat) (error : String)
deriving DecidableEq, Repr

/-- The observable external work of the POST handler: one embedding call
per skill and one catalog access per loop iteration. -/
inductive Effect where
  | embedCall (skill : String)
  | loadCall
deriving DecidableEq, Repr

/-- The per-skill loop of the POST handler (+server.ts lines 20-34): embed
the skill, load (and filter) the course data, compute similarities, take
the top k, and push the pair; a thrown error anywhere aborts the loop and
propagates. The cache is threaded through the iterations and the external
work is recorded. -/
def processSkills (embed : String → Except String (List ℚ))
    (primary fallback : Except String (List CourseWithEmbedding))
    (k : Int) (flt : Filters) :
    List String → Option (List CourseWithEmbedding) →
    Except String (List SkillResult) × Option (List CourseWithEmbedding) × List Effect
  | [], cache => (.ok [], cache, [])
  | s :: rest, cache =>
    match embed s with
    | .error e => (.error e, cache, [.embedCall s])
    | .ok emb =>
      match loadCourseData primary fallback cache (some flt) with
      | (.error e, cache1, _) => (.error e, cache1, [.embedCall s, .loadCall])
      | (.ok fr, cache1, _) =>
        let sims := computeSimilarities emb fr.embeddings
        let ms := getTopKMatches fr.courses sims k
        match processSkills embed primary fallback k flt rest cache1 with
        | (.error e, cache2, tr) => (.error e, cache2, .embedCall s :: .loadCall :: tr)
        | (.ok rs, cache2, tr) =>
          (.ok (⟨s, ms⟩ :: rs), cache2, .embedCall s :: .loadCall :: tr)

/-- The POST handler (+server.ts lines 5-47): reject a missing, non-array
or empty skills field with a 400 response before any other work; otherwise
run the per-skill loop, returning its results as a 200 response, or the
thrown message as a 500 response. -/
def POST (b : ReqBody) (embed : String → Except String (List ℚ))
    (primary fallback : Except String (List CourseWithEmbedding))
    (cache : Option (List CourseWithEmbedding)) :
    Resp × Option (List CourseWithEmbedding) × List Effect :=
  match b.skills with
  | .array (x :: xs) =>
    match processSkills embed primary fallback (b.k.getD 5) (dbFilters b) (x :: xs) cache with
    | (.ok rs, cache1, tr) => (.success rs, cache1, tr)
    | (.error e, cache1, tr) => (.failure 500 e, cache1, tr)
  | .array [] => (.failure 400 "Skills array is required", cache, [])
  | .missing => (.failure 400 "Skills array is required", cache, [])
  | .nonArray => (.failure 400 "Skills array is required", cache, [])

/-- The matches the pipeline computes for one skill against the catalog
data d: embed the skill, filter the catalog, score the survivors, take the
top k (the loop body of +server.ts lines 20-34 for one skill, given that
the catalog load yields d). -/
def matchesForSkill (embed : String → Except String (List ℚ))
    (d : List CourseWithEmbedding) (flt : Filters) (k : Int) (s : String) :
    List MatchResult :=
  match embed s with
  | .error _ => []
  | .ok emb =>
    let fr := filterCourses d (some flt)
    getTopKMatches fr.courses (computeSimilarities emb fr.embeddings) k

/-- The sum of squares accumulated by createSkillEmbedding
(+server.ts line 76: embedding.reduce of sum + val * val over 0). -/
def sumSq (v : List ℝ) : ℝ :=
  v.foldl (fun sum x => sum + x * x) 0

/-- The normalization step of createSkillEmbedding (+server.ts lines
76-77): divide every component by the Euclidean norm when that norm is
positive, otherwise return the raw vector unchanged. The provider call
around it is external; this is the pure tail of the function. -/
noncomputable def normalizeEmbedding (v : List ℝ) : List ℝ :=
  let norm := Real.sqrt (sumSq v)
  if 0 < norm then v.map (fun x => x / norm) else v

/-- Stated from the spec's words for comparison (claim C1): the credit
filter passes a course iff the closed course interval meets the closed
filter interval, an absent filter bound being unconstrained. -/
def creditOverlapSpec (c : Course) (fmin fmax : Option ℚ) : Prop :=
  (∀ m, fmin = some m → m ≤ c.credit_max) ∧
  (∀ m, fmax = some m → c.credit_min ≤ m)

/-- The amended form of the credit-overlap condition: a filter bound that
is absent or zero is unconstrained; a present nonzero bound takes part in
the interval-overlap test. -/
def creditOverlapAmended (c : Course) (fmin fmax : Option ℚ) : Prop :=
  (∀ m, fmin = some m → m ≠ 0 → m ≤ c.credit_max) ∧
  (∀ m, fmax = some m → m ≠ 0 → c.credit_min ≤ m)

/-- A course fixed at 3 credits (credit interval [3, 3]). -/
def fixedThreeCredits : Course :=
  ⟨1, "COMP SCI", 300, "Fixed credits", 3, 3, 3, "F24", ""⟩

/-- A course offered for 1 to 6 credits (credit interval [1, 6]). -/
def rangeCreditCourse : Course :=
  ⟨2, "MUSIC", 100, "Variable credits", 1, 1, 6, "S24", ""⟩

/-- A course whose most recent term is F24. -/
def courseF24 : Course :=
  ⟨3, "HISTORY", 201, "Recent course", 3, 3, 3, "F24", ""⟩

/-- A filter requesting courses last taught on or after S24. -/
def filterS24 : Filters :=
  ⟨none, none, none, none, none, some "S24"⟩

/-- Whether a store or embedding outcome succeeded. -/
def exceptOk {α : Type} : Except String α → Bool
  | .ok _ => true
  | .error _ => false

/-- Whether a store or embedding outcome failed (threw). -/
def exceptFailed {α : Type} : Except String α → Bool
  | .ok _ => false
  | .error _ => true

/-- A demonstration catalog entry used by concrete witnesses. -/
def demoCW : CourseWithEmbedding :=
  ⟨fixedThreeCredits, [1, 0]⟩

/-- The indexed score list has the same length as the score list. -/
theorem length_indexedFrom (i : Nat) (l : List ℚ) :
    (indexedFrom i l).length = l.length := by
  induction l generalizing i with
  | nil => simp [indexedFrom]
  | cons x t ih => simp [indexedFrom, ih]

/-- Projecting the scores back out of the indexed list returns the score
list. -/
theorem map_snd_indexedFrom (i : Nat) (l : List ℚ) :
    (indexedFrom i l).map Prod.snd = l := by
  induction l generalizing i with
  | nil => simp [indexedFrom]
  | cons x t ih => simp [indexedFrom, ih]

/-- Every entry of the indexed list is an in-range index paired with the
score stored at it (indices shifted by the starting offset). -/
theorem mem_indexedFrom {i : Nat} {l : List ℚ} {p : Nat × ℚ}
    (hp : p ∈ indexedFrom i l) : ∃ j : Nat, p.1 = i + j ∧ l[j]? = some p.2 := by
  induction l generalizing i with
  | nil => simp [indexedFrom] at hp
  | cons x t ih =>
    simp only [indexedFrom, List.mem_cons] at hp
    rcases hp with h | h
    · exact ⟨0, by simp [h], by simp [h]⟩
    · obtain ⟨j, hj1, hj2⟩ := ih h
      exact ⟨j + 1, by omega, by simpa using hj2⟩

/-- Indices in the indexed list are at least the starting offset. -/
theorem le_fst_of_mem_indexedFrom {i : Nat} {l : List ℚ} {p : Nat × ℚ}
    (hp : p ∈ indexedFrom i l) : i ≤ p.1 := by
  obtain ⟨j, hj, -⟩ := mem_indexedFrom hp
  omega

/-- The indices of the indexed list are strictly increasing. -/
theorem pairwise_fst_indexedFrom (i : Nat) (l : List ℚ) :
    (indexedFrom i l).Pairwise (fun a b => a.1 < b.1) := by
  induction l generalizing i with
  | nil => simp [indexedFrom]
  | cons x t ih =>
    simp only [indexedFrom, List.pairwise_cons]
    exact ⟨fun p hp => lt_of_lt_of_le (Nat.lt_succ_self i) (le_fst_of_mem_indexedFrom hp),
      ih (i + 1)⟩

/-- The indexed list has no duplicate entries. -/
theorem nodup_indexed (sims : List ℚ) : (indexed sims).Nodup := by
  refine (pairwise_fst_indexedFrom 0 sims).imp ?_
  intro a b hab heq
  rw [heq] at hab
  exact lt_irrefl _ hab

/-- Two entries of the indexed list with the earlier index form a pair
sublist of it. -/
theorem sublist_pair_indexedFrom {i : Nat} {l : List ℚ} {a b : Nat × ℚ}
    (ha : a ∈ indexedFrom i l) (hb : b ∈ indexedFrom i l) (hab : a.1 < b.1) :
    List.Sublist [a, b] (indexedFrom i l) := by
  induction l generalizing i with
  | nil => simp [indexedFrom] at ha
  | cons x t ih =>
    simp only [indexedFrom, List.mem_cons] at ha hb
    rcases ha with ha | ha
    · rcases hb with hb | hb
      · rw [ha, hb] at hab
        exact absurd hab (lt_irrefl _)
      · rw [ha]
        exact (List.singleton_sublist.mpr hb).cons₂ (i, x)
    · rcases hb with hb | hb
      · have := le_fst_of_mem_indexedFrom ha
        rw [hb] at hab
        omega
      · exact (ih ha hb).cons (i, x)

/-- The comparator order of getTopKMatches is transitive. -/
theorem leBySim_trans (a b c : Nat × ℚ) (h1 : leBySim a b) (h2 : leBySim b c) :
    leBySim a c := by
  simp only [leBySim, decide_eq_true_eq] at h1 h2 ⊢
  exact le_trans h2 h1

/-- The comparator order of getTopKMatches is total. -/
theorem leBySim_total (a b : Nat × ℚ) : leBySim a b || leBySim b a := by
  simp only [leBySim, Bool.or_eq_true, decide_eq_true_eq]
  exact le_total b.2 a.2

/-- The sorted index list is a permutation of the indexed list. -/
theorem sortIndexed_perm (sims : List ℚ) : (sortIndexed sims).Perm (indexed sims) :=
  List.mergeSort_perm (indexed sims) leBySim

/-- The sorted index list has the length of the score list. -/
theorem length_sortIndexed (sims : List ℚ) :
    (sortIndexed sims).length = sims.length := by
  rw [sortIndexed, List.length_mergeSort, indexed, length_indexedFrom]

/-- The sorted index list is sorted under the comparator order: scores
are descending. -/
theorem sortIndexed_sorted (sims : List ℚ) :
    (sortIndexed sims).Pairwise (fun a b => leBySim a b = true) :=
  List.sorted_mergeSort leBySim_trans leBySim_total (indexed sims)

/-- In a duplicate-free list, a pair cannot occur as a sublist in both
orders unless its two members coincide. -/
theorem eq_of_pair_sublist_both {α : Type} {m : List α} {x y : α}
    (hm : m.Nodup) (h1 : List.Sublist [x, y] m) (h2 : List.Sublist [y, x] m) : x = y := by
  induction m with
  | nil => cases h1
  | cons c t ih =>
    have hct := List.nodup_cons.mp hm
    cases h1 with
    | cons _ h1t =>
      cases h2 with
      | cons _ h2t => exact ih hct.2 h1t h2t
      | cons₂ h2t =>
        exact absurd (h1t.subset (by simp)) hct.1
    | cons₂ h1t =>
      cases h2 with
      | cons _ h2t =>
        exact absurd (h2t.subset (by simp)) hct.1
      | cons₂ h2t => rfl

/-- Stability of the sort step: among equal scores, the sorted index list
keeps the original (ascending-index) order. -/
theorem sortIndexed_stable (sims : List ℚ) :
    (sortIndexed sims).Pairwise (fun a b => a.2 = b.2 → a.1 < b.1) := by
  have hnd : (sortIndexed sims).Nodup :=
    ((sortIndexed_perm sims).nodup_iff).mpr (nodup_indexed sims)
  refine List.pairwise_iff_forall_sublist.mpr ?_
  intro a b hab heq
  have ham : a ∈ sortIndexed sims := hab.subset (by simp)
  have hbm : b ∈ sortIndexed sims := hab.subset (by simp)
  have hal : a ∈ indexed sims := (List.mem_mergeSort).mp ham
  have hbl : b ∈ indexed sims := (List.mem_mergeSort).mp hbm
  rcases Nat.lt_trichotomy a.1 b.1 with h | h | h
  · exact h
  · have hab' : a = b := Prod.ext h heq
    rw [hab'] at hab
    exact absurd hab (List.nodup_iff_sublist.mp hnd b)
  · have hsub : List.Sublist [b, a] (indexed sims) := sublist_pair_indexedFrom hbl hal h
    have hle : leBySim b a = true := by
      simp only [leBySim, decide_eq_true_eq, heq, le_refl]
    have hms : List.Sublist [b, a] (sortIndexed sims) :=
      List.pair_sublist_mergeSort leBySim_trans leBySim_total hle hsub
    have := eq_of_pair_sublist_both hnd hab hms
    rw [this] at h
    exact absurd h (lt_irrefl _)

/-- The slice step always yields an initial segment (a take) of its
input. -/
theorem jsSlice_eq_take {α : Type} (l : List α) (k : Int) :
    ∃ n : Nat, jsSlice l k = l.take n := by
  unfold jsSlice
  by_cases h : k < 0
  · exact ⟨((l.length : Int) + k).toNat, by simp [h]⟩
  · exact ⟨k.toNat, by simp [h]⟩

/-- Claim C1, counterexample: the claim quantifies over every filter, but
a present credit_max bound of 0 is falsy in the evaluator and is skipped,
so the course fixed at [3, 3] credits passes it even though the intervals
[3, 3] and (-inf, 0] do not overlap. -/
theorem creditPass_zero_bound_cex :
    creditPass fixedThreeCredits none (some 0) = true ∧
    ¬ creditOverlapSpec fixedThreeCredits none (some 0) := by
  refine ⟨by decide, fun h => ?_⟩
  have h3 : (3 : ℚ) ≤ 0 := h.2 0 rfl
  norm_num at h3

/-- Claim C1, amended: the credit filter passes a course iff the closed
intervals overlap, where a filter bound that is absent or zero is
unconstrained; in particular the [1, 6]-credit course matches a filter of
exactly 3 credits and the [3, 3]-credit course does not match the filter
interval [1, 2]. -/
theorem creditPass_iff_overlap :
    (∀ (c : Course) (fmin fmax : Option ℚ),
      creditPass c fmin fmax = true ↔ creditOverlapAmended c fmin fmax) ∧
    creditPass rangeCreditCourse (some 3) (some 3) = true ∧
    creditPass fixedThreeCredits (some 1) (some 2) = false := by
  refine ⟨fun c fmin fmax => ?_, by decide, by decide⟩
  cases fmin <;> cases fmax <;>
    simp [creditPass, creditMinPass, creditMaxPass, creditOverlapAmended, not_lt] <;>
    tauto

/-- Claim C2, counterexample: F24 compares lexically below S24, so the
course last taught in F24 is failed, not passed, by a filter requesting
last_taught on or after S24. -/
theorem lastTaught_F24_fails_S24 :
    jsStrLt "F24" "S24" = true ∧ coursePasses courseF24 filterS24 = false := by
  decide

/-- Claim C2, amended: under the lexical comparison used by the
last_taught filter the term code F24 compares below S24, so a course with
last_taught F24 fails a filter with last_taught S24; in general, for a
nonempty filter value the clause fails a course iff its last_taught
lexically compares less than the filter value. -/
theorem lastTaughtPass_iff_lt :
    jsStrLt "F24" "S24" = true ∧
    (∀ (c : Course) (s : String), s ≠ "" →
      (lastTaughtPass c (some s) = false ↔ jsStrLt c.last_taught s = true)) ∧
    lastTaughtPass courseF24 (some "S24") = false := by
  refine ⟨by decide, fun c s hs => ?_, by decide⟩
  simp [lastTaughtPass, hs]

/-- Witness for the amended claim C2 at the concrete course and filter
value of the claim. -/
theorem lastTaughtPass_iff_lt_witness :
    ("S24" ≠ "") ∧
    (lastTaughtPass courseF24 (some "S24") = false ↔
      jsStrLt courseF24.last_taught "S24" = true) := by
  refine ⟨by decide, lastTaughtPass_iff_lt.2.1 courseF24 "S24" (by decide)⟩

/-- Claim C10: a filter field carrying the falsy value 0 (for the numeric
bounds) or the empty string (for the string fields) imposes no
constraint: the evaluator treats it exactly as an absent field, and the
corresponding clause passes every course. -/
theorem falsy_filter_fields_unconstrained :
    ∀ (c : Course) (f : Filters),
      (coursePasses c { f with subject_contains := some "" } =
         coursePasses c { f with subject_contains := none } ∧
       subjectPass c (some "") = true) ∧
      (coursePasses c { f with level_min := some 0 } =
         coursePasses c { f with level_min := none } ∧
       levelMinPass c (some 0) = true) ∧
      (coursePasses c { f with level_max := some 0 } =
         coursePasses c { f with level_max := none } ∧
       levelMaxPass c (some 0) = true) ∧
      (coursePasses c { f with credit_min := some 0 } =
         coursePasses c { f with credit_min := none } ∧
       creditMinPass c (some 0) = true) ∧
      (coursePasses c { f with credit_max := some 0 } =
         coursePasses c { f with credit_max := none } ∧
       creditMaxPass c (some 0) = true) ∧
      (coursePasses c { f with last_taught := some "" } =
         coursePasses c { f with last_taught := none } ∧
       lastTaughtPass c (some "") = true) := by
  intro c f
  simp [coursePasses, subjectPass, levelMinPass, levelMaxPass, creditMinPass,
    creditMaxPass, lastTaughtPass]

/-- The similarity column of the top-k output is the score column of the
sliced sorted index list. -/
theorem map_similarity_getTopKMatches (courses : List Course) (sims : List ℚ) (k : Int) :
    (getTopKMatches courses sims k).map MatchResult.similarity
      = (jsSlice (sortIndexed sims) k).map Prod.snd := by
  simp only [getTopKMatches, List.map_map]
  rfl

/-- For a positive k the slice step is an initial segment of length k. -/
theorem jsSlice_pos {α : Type} (l : List α) (k : Int) (hk : 0 < k) :
    jsSlice l k = l.take k.toNat := by
  simp [jsSlice, not_lt.mpr (le_of_lt hk)]

/-- Claim C3, counterexample: a negative k is not an empty slice.
JavaScript slice(0, -1) drops only the last entry, so with two surviving
courses and k = -1 the selection returns one entry, not none. -/
theorem getTopKMatches_neg_k_cex :
    ((-1 : Int) ≤ 0) ∧
    getTopKMatches [fixedThreeCredits, rangeCreditCourse] [1, 2] (-1) ≠ [] := by
  refine ⟨by norm_num, fun hnil => ?_⟩
  have h : (getTopKMatches [fixedThreeCredits, rangeCreditCourse] [1, 2] (-1)).length
      = 1 := by
    have hl : (sortIndexed [1, 2]).length = 2 := by
      rw [length_sortIndexed]; rfl
    simp [getTopKMatches, jsSlice, hl]
  rw [hnil] at h
  simp at h

/-- Claim C3, amended: for k = 0 the selection returns an empty result;
for negative k it returns the ranked survivors with the last |k| entries
dropped, i.e. max(n + k, 0) entries for n survivors (JavaScript slice
counts a negative end index from the end); no error is signalled in
either case. -/
theorem getTopKMatches_nonpos_k (courses : List Course) (sims : List ℚ) (k : Int)
    (hk : k ≤ 0) :
    (k = 0 → getTopKMatches courses sims k = []) ∧
    (k < 0 → (getTopKMatches courses sims k).length
      = ((sims.length : Int) + k).toNat) := by
  constructor
  · intro h0
    subst h0
    simp [getTopKMatches, jsSlice]
  · intro hneg
    have hl := length_sortIndexed sims
    simp only [getTopKMatches, jsSlice, if_pos hneg, List.length_map, List.length_take, hl]
    omega

/-- Witness for the amended claim C3 at two surviving courses and
k = -1: one entry survives the slice. -/
theorem getTopKMatches_nonpos_k_witness :
    (getTopKMatches [fixedThreeCredits, rangeCreditCourse] [(1 : ℚ), 2] (-1)).length
      = ((([(1 : ℚ), 2].length : Int)) + (-1)).toNat :=
  (getTopKMatches_nonpos_k [fixedThreeCredits, rangeCreditCourse] [1, 2] (-1)
    (by norm_num)).2 (by norm_num)

/-- Claim C4: for positive k the selection returns min(k, n) entries for
n survivors, ranked by non-increasing similarity; the returned scores
together with the discarded ones are a permutation of all scores and
every returned score is at least every discarded one (so the entries are
the k highest); and each entry is a surviving course paired with its own
score. When fewer than k courses survive, min(k, n) = n: all survivors
are returned, with no padding and no error. -/
theorem getTopKMatches_topk (courses : List Course) (sims : List ℚ) (k : Int)
    (hk : 0 < k) (hlen : courses.length = sims.length) :
    (getTopKMatches courses sims k).length = min k.toNat sims.length ∧
    ((getTopKMatches courses sims k).map MatchResult.similarity).Pairwise
      (fun a b => b ≤ a) ∧
    (∃ rest : List ℚ,
      sims.Perm ((getTopKMatches courses sims k).map MatchResult.similarity ++ rest) ∧
      ∀ a ∈ (getTopKMatches courses sims k).map MatchResult.similarity,
        ∀ b ∈ rest, b ≤ a) ∧
    (∀ m ∈ getTopKMatches courses sims k, ∃ i : Nat,
      sims[i]? = some m.similarity ∧ courses[i]? = some m.course) := by
  have hslice : jsSlice (sortIndexed sims) k = (sortIndexed sims).take k.toNat :=
    jsSlice_pos _ _ hk
  have hmap := map_similarity_getTopKMatches courses sims k
  refine ⟨?_, ?_, ?_, ?_⟩
  · simp [getTopKMatches, hslice, length_sortIndexed]
  · rw [hmap, hslice]
    have hs : ((sortIndexed sims).take k.toNat).Pairwise (fun a b => leBySim a b = true) :=
      (sortIndexed_sorted sims).sublist (List.take_sublist _ _)
    exact hs.map Prod.snd (fun a b h => by simpa [leBySim] using h)
  · refine ⟨((sortIndexed sims).drop k.toNat).map Prod.snd, ?_, ?_⟩
    · rw [hmap, hslice, ← List.map_append, List.take_append_drop]
      have hperm := (sortIndexed_perm sims).map Prod.snd
      rw [indexed, map_snd_indexedFrom] at hperm
      exact hperm.symm
    · intro a ha b hb
      rw [hmap, hslice] at ha
      obtain ⟨p, hp, hpa⟩ := List.mem_map.mp ha
      obtain ⟨q, hq, hqb⟩ := List.mem_map.mp hb
      have hsplit : (((sortIndexed sims).take k.toNat) ++
          ((sortIndexed sims).drop k.toNat)).Pairwise (fun a b => leBySim a b = true) := by
        rw [List.take_append_drop]
        exact sortIndexed_sorted sims
      have hpq := (List.pairwise_append.mp hsplit).2.2 p hp q hq
      have h2 : q.2 ≤ p.2 := by simpa [leBySim] using hpq
      rw [← hpa, ← hqb]
      exact h2
  · intro m hm
    simp only [getTopKMatches, List.mem_map] at hm
    obtain ⟨p, hp, hpm⟩ := hm
    have hps : p ∈ sortIndexed sims := by
      obtain ⟨n, hn⟩ := jsSlice_eq_take (sortIndexed sims) k
      rw [hn] at hp
      exact List.take_subset n _ hp
    have hpi : p ∈ indexed sims := List.mem_mergeSort.mp hps
    obtain ⟨j, hj, hjv⟩ := mem_indexedFrom hpi
    have hj0 : p.1 = j := by omega
    have hlt : j < sims.length := by
      by_contra hge
      rw [List.getElem?_eq_none (by omega)] at hjv
      cases hjv
    have hlt' : p.1 < courses.length := by omega
    refine ⟨p.1, ?_, ?_⟩
    · rw [hj0, ← hpm]
      exact hjv
    · rw [← hpm]
      simp [List.getElem?_eq_getElem hlt', List.getD_eq_getElem _ _ hlt']

/-- Witness for claim C4 at two surviving courses, scores 1 and 2, and
k = 1. -/
theorem getTopKMatches_topk_witness :
    (0 : Int) < 1 ∧
    ([fixedThreeCredits, rangeCreditCourse].length = [(1 : ℚ), 2].length) ∧
    ((getTopKMatches [fixedThreeCredits, rangeCreditCourse] [(1 : ℚ), 2] 1).length
      = min (1 : Int).toNat [(1 : ℚ), 2].length ∧
    ((getTopKMatches [fixedThreeCredits, rangeCreditCourse] [(1 : ℚ), 2] 1).map
      MatchResult.similarity).Pairwise (fun a b => b ≤ a) ∧
    (∃ rest : List ℚ,
      ([(1 : ℚ), 2]).Perm
        ((getTopKMatches [fixedThreeCredits, rangeCreditCourse] [(1 : ℚ), 2] 1).map
          MatchResult.similarity ++ rest) ∧
      ∀ a ∈ (getTopKMatches [fixedThreeCredits, rangeCreditCourse] [(1 : ℚ), 2] 1).map
        MatchResult.similarity, ∀ b ∈ rest, b ≤ a) ∧
    (∀ m ∈ getTopKMatches [fixedThreeCredits, rangeCreditCourse] [(1 : ℚ), 2] 1,
      ∃ i : Nat, ([(1 : ℚ), 2])[i]? = some m.similarity ∧
        ([fixedThreeCredits, rangeCreditCourse])[i]? = some m.course)) :=
  ⟨by norm_num, by rfl,
    getTopKMatches_topk [fixedThreeCredits, rangeCreditCourse] [1, 2] 1
      (by norm_num) (by rfl)⟩

/-- Claim C5: the ranking is stable. Among entries with equal similarity
scores the sliced, sorted ranking keeps ascending survivor indices, i.e.
the original order of the survivors; and filtering itself preserves
catalog order (the surviving course list is a sublist of the catalog),
so equal-score courses appear in catalog order, first-loaded first. -/
theorem topk_ranking_stable :
    (∀ (sims : List ℚ) (k : Int),
      (jsSlice (sortIndexed sims) k).Pairwise (fun a b => a.2 = b.2 → a.1 < b.1)) ∧
    (∀ (courses : List CourseWithEmbedding) (flt : Option Filters),
      List.Sublist (filterCourses courses flt).courses
        (courses.map (fun cw => cw.toCourse))) := by
  constructor
  · intro sims k
    obtain ⟨n, hn⟩ := jsSlice_eq_take (sortIndexed sims) k
    rw [hn]
    exact (sortIndexed_stable sims).sublist (List.take_sublist n _)
  · intro courses flt
    cases flt with
    | none => simp [filterCourses]
    | some f =>
      simp only [filterCourses]
      exact (List.filter_sublist courses).map (fun cw => cw.toCourse)

/-- Folding the square accumulator from any start adds the sum of
squares. -/
theorem sumSq_foldl_eq (v : List ℝ) :
    ∀ a : ℝ, v.foldl (fun sum x => sum + x * x) a = a + (v.map (fun x => x * x)).sum := by
  induction v with
  | nil => intro a; simp
  | cons x t ih =>
    intro a
    simp only [List.foldl_cons, List.map_cons, List.sum_cons, ih]
    ring

/-- The accumulated value of createSkillEmbedding is the sum of the
squared components. -/
theorem sumSq_eq_sum_map (v : List ℝ) : sumSq v = (v.map (fun x => x * x)).sum := by
  rw [sumSq, sumSq_foldl_eq, zero_add]

/-- The sum of squares is nonnegative. -/
theorem sumSq_nonneg (v : List ℝ) : 0 ≤ sumSq v := by
  rw [sumSq_eq_sum_map]
  apply List.sum_nonneg
  intro x hx
  obtain ⟨y, -, rfl⟩ := List.mem_map.mp hx
  exact mul_self_nonneg y

/-- The sum of squares vanishes exactly on the zero vector. -/
theorem sumSq_eq_zero_iff (v : List ℝ) : sumSq v = 0 ↔ ∀ x ∈ v, x = 0 := by
  induction v with
  | nil => simp [sumSq]
  | cons x t ih =>
    have hc : sumSq (x :: t) = x * x + sumSq t := by
      rw [sumSq_eq_sum_map, sumSq_eq_sum_map, List.map_cons, List.sum_cons]
    rw [hc]
    rw [add_eq_zero_iff_of_nonneg (mul_self_nonneg x) (sumSq_nonneg t)]
    simp [mul_self_eq_zero, ih]

/-- Dividing a sum termwise divides the sum. -/
theorem sum_map_div (l : List ℝ) (c : ℝ) :
    (l.map (fun x => x / c)).sum = l.sum / c := by
  induction l with
  | nil => simp
  | cons x t ih => simp [ih, add_div]

/-- Scaling every component by 1/c scales the sum of squares by
1/(c*c). -/
theorem sumSq_map_div (v : List ℝ) (c : ℝ) :
    sumSq (v.map (fun x => x / c)) = sumSq v / (c * c) := by
  rw [sumSq_eq_sum_map, sumSq_eq_sum_map, List.map_map]
  have hfun : ((fun x => x * x) ∘ fun x => x / c) = fun x => (x * x) / (c * c) := by
    funext x
    simp [Function.comp, div_mul_div_comm]
  rw [hfun]
  have := sum_map_div (l := v.map (fun x => x * x)) (c := c * c)
  rw [List.map_map] at this
  exact this

/-- Normalizing the zero vector is skipped: the vector comes back
unchanged. -/
theorem normalizeEmbedding_of_zero (v : List ℝ) (h : ∀ x ∈ v, x = 0) :
    normalizeEmbedding v = v := by
  unfold normalizeEmbedding
  rw [(sumSq_eq_zero_iff v).mpr h, Real.sqrt_zero]
  simp

/-- Normalizing a vector whose sum of squares is already 1 is a no-op. -/
theorem normalizeEmbedding_of_unit (v : List ℝ) (h : sumSq v = 1) :
    normalizeEmbedding v = v := by
  unfold normalizeEmbedding
  rw [h, Real.sqrt_one]
  simp

/-- Normalizing a nonzero vector produces sum of squares 1. -/
theorem sumSq_normalizeEmbedding (v : List ℝ) (h : ∃ x ∈ v, x ≠ 0) :
    sumSq (normalizeEmbedding v) = 1 := by
  have hne : ¬ sumSq v = 0 := by
    rw [sumSq_eq_zero_iff]
    intro hall
    obtain ⟨x, hx, hxne⟩ := h
    exact hxne (hall x hx)
  have hpos : 0 < sumSq v := lt_of_le_of_ne (sumSq_nonneg v) (Ne.symm hne)
  have hnorm : 0 < Real.sqrt (sumSq v) := Real.sqrt_pos.mpr hpos
  unfold normalizeEmbedding
  rw [if_pos hnorm, sumSq_map_div, Real.mul_self_sqrt (le_of_lt hpos)]
  exact div_self hne

/-- Claim C6: the embedder's normalization step yields a vector of
Euclidean magnitude 1 (sum of squares 1) whenever the raw vector is not
the zero vector; the zero vector is returned unchanged; a vector that is
already unit length is left as it is; and the step is idempotent. -/
theorem normalizeEmbedding_spec :
    ∀ v : List ℝ,
      ((∃ x ∈ v, x ≠ 0) → sumSq (normalizeEmbedding v) = 1 ∧
        Real.sqrt (sumSq (normalizeEmbedding v)) = 1) ∧
      ((∀ x ∈ v, x = 0) → normalizeEmbedding v = v) ∧
      (sumSq v = 1 → normalizeEmbedding v = v) ∧
      normalizeEmbedding (normalizeEmbedding v) = normalizeEmbedding v := by
  intro v
  refine ⟨fun h => ?_, normalizeEmbedding_of_zero v, normalizeEmbedding_of_unit v, ?_⟩
  · have h1 := sumSq_normalizeEmbedding v h
    exact ⟨h1, by rw [h1, Real.sqrt_one]⟩
  · by_cases hz : ∀ x ∈ v, x = 0
    · rw [normalizeEmbedding_of_zero v hz, normalizeEmbedding_of_zero v hz]
    · have hex : ∃ x ∈ v, x ≠ 0 := by
        push_neg at hz
        exact hz
      exact normalizeEmbedding_of_unit _ (sumSq_normalizeEmbedding v hex)

/-- Witness for claim C6 at the one-component vector with entry 1. -/
theorem normalizeEmbedding_spec_witness :
    (∃ x ∈ [(1 : ℝ)], x ≠ 0) ∧ sumSq (normalizeEmbedding [(1 : ℝ)]) = 1 := by
  have hx : ∃ x ∈ [(1 : ℝ)], x ≠ 0 := ⟨1, by simp, one_ne_zero⟩
  exact ⟨hx, ((normalizeEmbedding_spec [(1 : ℝ)]).1 hx).1⟩

/-- Claim C7: a missing, non-array, or empty skills field is rejected
with a 400 client-error response carrying the structured payload message,
the cache is untouched, and no embedding call and no catalog access is
performed (the effect trace is empty); in particular the response is
never an empty-but-successful one. -/
theorem post_invalid_skills :
    ∀ (b : ReqBody) (embed : String → Except String (List ℚ))
      (primary fallback : Except String (List CourseWithEmbedding))
      (cache : Option (List CourseWithEmbedding)),
      (b.skills = .missing ∨ b.skills = .nonArray ∨ b.skills = .array []) →
      POST b embed primary fallback cache
        = (.failure 400 "Skills array is required", cache, []) := by
  intro b embed p f c h
  rcases h with h | h | h <;> simp [POST, h]

/-- Witness for claim C7: the empty skills array with every collaborator
failing still yields the 400 response, an untouched cache and no external
work. -/
theorem post_invalid_skills_witness :
    POST ⟨.array [], none, none, none, none, none, none, none, none⟩
      (fun _ => .error "embedder down") (.error "blob down") (.error "file down") none
      = (.failure 400 "Skills array is required", none, []) :=
  post_invalid_skills _ _ _ _ _ (Or.inr (Or.inr rfl))

/-- Claim C8: with an empty cache the load consults the primary store
first and the fallback store exactly when the primary fails; the call
throws iff both stores fail; a catalog obtained from either store is
returned filtered and cached whole; and a populated cache is served
directly, consulting no store at all. -/
theorem loadCourseData_spec :
    ∀ (primary fallback : Except String (List CourseWithEmbedding))
      (flt : Option Filters),
      ((loadCourseData primary fallback none flt).2.2
        = if exceptOk primary then [.primaryStore]
          else [.primaryStore, .fallbackStore]) ∧
      (exceptFailed (loadCourseData primary fallback none flt).1 = true
        ↔ exceptFailed primary = true ∧ exceptFailed fallback = true) ∧
      (∀ d, primary = .ok d →
        loadCourseData primary fallback none flt
          = (.ok (filterCourses d flt), some d, [.primaryStore])) ∧
      (∀ d, exceptFailed primary = true → fallback = .ok d →
        loadCourseData primary fallback none flt
          = (.ok (filterCourses d flt), some d,
              [.primaryStore, .fallbackStore])) ∧
      (∀ d, loadCourseData primary fallback (some d) flt
        = (.ok (filterCourses d flt), some d, [])) := by
  intro primary fallback flt
  cases primary <;> cases fallback <;>
    simp [loadCourseData, exceptOk, exceptFailed]

/-- Witness for claim C8: a healthy primary store with a failing fallback
loads, filters and caches the primary catalog in one consultation. -/
theorem loadCourseData_spec_witness :
    loadCourseData (.ok [demoCW]) (.error "file down") none none
      = (.ok (filterCourses [demoCW] none), some [demoCW], [.primaryStore]) :=
  (loadCourseData_spec (.ok [demoCW]) (.error "file down") none).2.2.1 [demoCW] rfl

/-- A load that can succeed with catalog d (cached, primary, or fallback
after primary failure) returns the filtered d and caches d. -/
theorem loadCourseData_ok_of
    (primary fallback : Except String (List CourseWithEmbedding))
    (c0 : Option (List CourseWithEmbedding)) (flt : Option Filters)
    (d : List CourseWithEmbedding)
    (hld : c0 = some d ∨ (c0 = none ∧ primary = .ok d) ∨
      (c0 = none ∧ exceptFailed primary = true ∧ fallback = .ok d)) :
    ∃ att, loadCourseData primary fallback c0 flt
      = (.ok (filterCourses d flt), some d, att) := by
  rcases hld with h | ⟨h1, h2⟩ | ⟨h1, h2, h3⟩
  · exact ⟨[], by simp [loadCourseData, h]⟩
  · exact ⟨[.primaryStore], by simp [loadCourseData, h1, h2]⟩
  · cases hp : primary with
    | ok d2 => rw [hp] at h2; simp [exceptFailed] at h2
    | error e =>
      exact ⟨[.primaryStore, .fallbackStore], by simp [loadCourseData, h1, hp, h3]⟩

/-- With the catalog d already cached and every embedding succeeding, the
per-skill loop returns one entry per skill, in order, each carrying the
matches computed from its own skill. -/
theorem processSkills_cached (embed : String → Except String (List ℚ))
    (primary fallback : Except String (List CourseWithEmbedding))
    (k : Int) (flt : Filters) :
    ∀ (xs : List String) (d : List CourseWithEmbedding),
      (∀ s ∈ xs, exceptOk (embed s) = true) →
      ∃ tr, processSkills embed primary fallback k flt xs (some d)
        = (.ok (xs.map (fun s => ⟨s, matchesForSkill embed d flt k s⟩)), some d, tr) := by
  intro xs
  induction xs with
  | nil => intro d _; exact ⟨[], rfl⟩
  | cons x rest ih =>
    intro d h
    have hx := h x (by simp)
    cases hembx : embed x with
    | error e => rw [hembx] at hx; simp [exceptOk] at hx
    | ok emb =>
      obtain ⟨tr, htr⟩ := ih d (fun s hs => h s (by simp [hs]))
      refine ⟨.embedCall x :: .loadCall :: tr, ?_⟩
      simp [processSkills, hembx, loadCourseData, htr, matchesForSkill]

/-- Starting from any state in which the load can succeed with catalog d,
the per-skill loop with all embeddings succeeding returns one entry per
skill, in order, each carrying its own skill's matches, and leaves d
cached. -/
theorem processSkills_start (embed : String → Except String (List ℚ))
    (primary fallback : Except String (List CourseWithEmbedding))
    (k : Int) (flt : Filters) (x : String) (xs : List String)
    (c0 : Option (List CourseWithEmbedding)) (d : List CourseWithEmbedding)
    (hld : c0 = some d ∨ (c0 = none ∧ primary = .ok d) ∨
      (c0 = none ∧ exceptFailed primary = true ∧ fallback = .ok d))
    (hemb : ∀ s ∈ x :: xs, exceptOk (embed s) = true) :
    ∃ tr, processSkills embed primary fallback k flt (x :: xs) c0
      = (.ok ((x :: xs).map (fun s => ⟨s, matchesForSkill embed d flt k s⟩)),
          some d, tr) := by
  have hx := hemb x (by simp)
  cases hembx : embed x with
  | error e => rw [hembx] at hx; simp [exceptOk] at hx
  | ok emb =>
    obtain ⟨att, hatt⟩ := loadCourseData_ok_of primary fallback c0 (some flt) d hld
    obtain ⟨tr, htr⟩ := processSkills_cached embed primary fallback k flt xs d
      (fun s hs => hemb s (by simp [hs]))
    refine ⟨.embedCall x :: .loadCall :: tr, ?_⟩
    simp [processSkills, hembx, hatt, htr, matchesForSkill]

/-- If embedding any listed skill fails, the per-skill loop throws. -/
theorem processSkills_fail (embed : String → Except String (List ℚ))
    (primary fallback : Except String (List CourseWithEmbedding))
    (k : Int) (flt : Filters) :
    ∀ (xs : List String) (c : Option (List CourseWithEmbedding)),
      (∃ s ∈ xs, exceptFailed (embed s) = true) →
      ∃ msg, (processSkills embed primary fallback k flt xs c).1 = .error msg := by
  intro xs
  induction xs with
  | nil => intro c h; simp at h
  | cons x rest ih =>
    intro c h
    cases hembx : embed x with
    | error e => exact ⟨e, by simp [processSkills, hembx]⟩
    | ok emb =>
      have hrest : ∃ s ∈ rest, exceptFailed (embed s) = true := by
        obtain ⟨s, hs, hfail⟩ := h
        rcases List.mem_cons.mp hs with rfl | hs2
        · rw [hembx] at hfail
          simp [exceptFailed] at hfail
        · exact ⟨s, hs2, hfail⟩
      rcases hload : loadCourseData primary fallback c (some flt) with ⟨res, c1, att⟩
      cases res with
      | error e => exact ⟨e, by simp [processSkills, hembx, hload]⟩
      | ok fr =>
        obtain ⟨msg, hmsg⟩ := ih c1 hrest
        refine ⟨msg, ?_⟩
        simp only [processSkills, hembx, hload]
        rcases hps : processSkills embed primary fallback k flt rest c1 with ⟨rres, c2, tr⟩
        rw [hps] at hmsg
        cases rres with
        | error e2 => simpa using hmsg
        | ok rs => simp at hmsg

/-- Claim C9: for a request with a nonempty skills array whose catalog
load can succeed with data d, if every per-skill embedding succeeds the
response is a 200 success whose results list has exactly one entry per
requested skill, in the caller's order, each entry pairing the skill with
the matches computed from that same skill; and if embedding any listed
skill fails, the whole request fails with a 500 response (fail-fast), so
no skill's matches are ever attributed to another skill. -/
theorem post_results_per_skill
    (b : ReqBody) (embed : String → Except String (List ℚ))
    (primary fallback : Except String (List CourseWithEmbedding))
    (cache : Option (List CourseWithEmbedding)) (xs : List String)
    (d : List CourseWithEmbedding) :
    (b.skills = .array xs → xs ≠ [] →
      (∀ s ∈ xs, exceptOk (embed s) = true) →
      (cache = some d ∨ (cache = none ∧ primary = .ok d) ∨
        (cache = none ∧ exceptFailed primary = true ∧ fallback = .ok d)) →
      (POST b embed primary fallback cache).1
        = .success (xs.map (fun s =>
            ⟨s, matchesForSkill embed d (dbFilters b) (b.k.getD 5) s⟩))) ∧
    (b.skills = .array xs →
      (∃ s ∈ xs, exceptFailed (embed s) = true) →
      ∃ msg, (POST b embed primary fallback cache).1 = .failure 500 msg) := by
  constructor
  · intro hsk hne hemb hld
    cases xs with
    | nil => exact absurd rfl hne
    | cons x rest =>
      obtain ⟨tr, htr⟩ := processSkills_start embed primary fallback (b.k.getD 5)
        (dbFilters b) x rest cache d hld hemb
      simp [POST, hsk, htr]
  · intro hsk hfail
    cases xs with
    | nil => simp at hfail
    | cons x rest =>
      obtain ⟨msg, hmsg⟩ := processSkills_fail embed primary fallback (b.k.getD 5)
        (dbFilters b) (x :: rest) cache hfail
      refine ⟨msg, ?_⟩
      simp only [POST, hsk]
      rcases hps : processSkills embed primary fallback (b.k.getD 5) (dbFilters b)
        (x :: rest) cache with ⟨res, c1, tr⟩
      rw [hps] at hmsg
      cases res with
      | ok rs => simp at hmsg
      | error e =>
        simp only at hmsg
        rw [hmsg]

/-- Witness for claim C9: one skill, a healthy embedder and a healthy
primary store produce the one-entry result list for that skill. -/
theorem post_results_per_skill_witness :
    (POST ⟨.array ["piano"], none, none, none, none, none, none, none, none⟩
        (fun _ => .ok [(1 : ℚ), 0]) (.ok [demoCW]) (.error "file down") none).1
      = .success (["piano"].map (fun s =>
          ⟨s, matchesForSkill (fun _ => .ok [(1 : ℚ), 0]) [demoCW]
            ⟨none, none, none, none, none, none⟩ 5 s⟩)) :=
  (post_results_per_skill ⟨.array ["piano"], none, none, none, none, none, none, none, none⟩
    (fun _ => .ok [(1 : ℚ), 0]) (.ok [demoCW]) (.error "file down") none
    ["piano"] [demoCW]).1 rfl (by simp) (fun s _ => rfl)
    (Or.inr (Or.inl ⟨rfl, rfl⟩))
